import Mathlib

/-!
Verification of the `ingram_data_services` incremental fetch-and-stage
pipeline (`ingram.py`).

The Python module is shallowly embedded: path strings are Lean `String`s,
the local filesystem is an explicit association list of files plus a set of
directories (with logs of file writes and of directories created lazily by
the archive extractor), zip archives are lists of `(entryName, content)`
pairs (or a `corrupt` marker for archives `ZipFile` refuses to open), and
network transfers are driven by an oracle `String → FetchOutcome` standing
for the remote FTP server.  `multiprocessing.Pool.starmap` over the
download tasks is modelled by a sequential fold in submission order in
which every submitted task runs — CPython's pool enqueues all chunks up
front and its `MapResult` waits for every job before re-raising — and the
first task exception, if any, is re-raised to the caller once the batch is
done.  The extraction batches are used by the orchestrator only through
their caller-visible outcome: the first raising task's exception or
success.
-/

namespace IngramDS

/-! ### Python string/path primitives used by `ingram.py` -/

/-- Index of the last occurrence of character `t`, as in Python `str.rfind`. -/
def lastIdxOf (t : Char) : List Char → Option Nat
  | [] => none
  | c :: rest =>
    match lastIdxOf t rest with
    | some i => some (i + 1)
    | none => if c = t then some 0 else none

/-- Model of `os.path.dirname` (posix): everything up to the last `/`; a head that is
all slashes is kept as is, otherwise trailing slashes are stripped. -/
def dirnamePy (p : String) : String :=
  match lastIdxOf '/' p.toList with
  | none => ""
  | some i =>
    let head := p.toList.take (i + 1)
    if head.all (fun c => c = '/') then ⟨head⟩
    else ⟨(head.reverse.dropWhile (fun c => c = '/')).reverse⟩

/-- Model of `os.path.splitext` (posix): splits off the extension beginning at the
last dot of the basename, provided some non-dot character of the basename
precedes that dot. -/
def splitextPy (p : String) : String × String :=
  let cs := p.toList
  match lastIdxOf '.' cs with
  | none => (p, "")
  | some di =>
    let keep : Bool :=
      match lastIdxOf '/' cs with
      | none => (cs.take di).any (fun c => c ≠ '.')
      | some si =>
        if si < di then ((cs.drop (si + 1)).take (di - (si + 1))).any (fun c => c ≠ '.')
        else false
    if keep then (⟨cs.take di⟩, ⟨cs.drop di⟩) else (p, "")

/-- Python slice `s[-n:]`: the last `n` characters (the whole string when it
is shorter than `n`). -/
def sliceLast (n : Nat) (s : String) : String :=
  ⟨s.toList.drop (s.toList.length - n)⟩

/-- Model of `os.path.join` (posix) on two components: `b` absolute replaces `a`;
otherwise a separator is inserted unless `a` is empty or already ends with
one. -/
def joinTwo (a b : String) : String :=
  if b.toList.head? = some '/' then b
  else if a.toList = [] ∨ a.toList.getLast? = some '/' then a ++ b
  else a ++ "/" ++ b

/-- Model of `os.path.join` on three components. -/
def osJoin3 (a b c : String) : String := joinTwo (joinTwo a b) c

/-- Model of `str.lstrip("/")`: drop leading slashes. -/
def lstripSlash (s : String) : String :=
  ⟨s.toList.dropWhile (fun c => c = '/')⟩

/-- Helper for `str.replace`: `old` occurs at the head of `s`. -/
def headOcc (old s : List Char) : Bool :=
  s.take old.length == old

/-- Model of `str.replace(old, new)` on character lists: every occurrence of `old`
is replaced, scanning left to right. -/
def replaceList (s old new : List Char) : List Char :=
  match s with
  | [] => []
  | c :: rest =>
    if h : old ≠ [] ∧ headOcc old (c :: rest) = true then
      new ++ replaceList ((c :: rest).drop old.length) old new
    else
      c :: replaceList rest old new
termination_by s.length
decreasing_by
  · simp only [List.length_drop]
    have hlen : 0 < old.length := List.length_pos.mpr h.1
    simp only [List.length_cons]
    omega
  · simp [Nat.lt_succ_self]

/-- Model of `str.replace(old, new)` on strings. -/
def replaceAll (s old new : String) : String :=
  ⟨replaceList s.toList old.toList new.toList⟩

/-- The f-string format spec `04` applied to `i`, as used by the shard
pre-creation loop: zero-padded four decimal digits for `i < 10000`, plain
decimal otherwise. -/
def pad4 (i : Nat) : String :=
  if i < 10000 then
    ⟨[Nat.digitChar (i / 1000 % 10), Nat.digitChar (i / 100 % 10),
      Nat.digitChar (i / 10 % 10), Nat.digitChar (i % 10)]⟩
  else toString i

/-! ### Filesystem model -/

/-- The local filesystem: `files` maps paths to byte contents (later writes
shadow earlier ones), `dirs` is the set of existing directories, `writes`
logs every file write performed (most recent first), and `lazyDirs` logs
every directory created lazily by the zip extractor (as opposed to the
explicit `os.makedirs` pre-creation loop). -/
structure FS where
  files : List (String × String)
  dirs : List String
  writes : List String
  lazyDirs : List String
deriving Repr, DecidableEq

def emptyFS : FS := ⟨[], [], [], []⟩

def FS.lookupFile (fs : FS) (p : String) : Option String :=
  fs.files.lookup p

/-- Model of `os.path.exists`: true for existing files and directories. -/
def FS.pathExists (fs : FS) (p : String) : Bool :=
  (fs.lookupFile p).isSome || fs.dirs.contains p

/-- Write (or overwrite) a file, logging the write. -/
def FS.writeFile (fs : FS) (p c : String) : FS :=
  { fs with files := (p, c) :: fs.files, writes := p :: fs.writes }

/-- Model of `os.makedirs(p, exist_ok=True)`: never raises, creates the directory if
missing. -/
def FS.makedirsExistOk (fs : FS) (p : String) : FS :=
  if fs.dirs.contains p then fs else { fs with dirs := p :: fs.dirs }

/-- Directory creation performed inside `ZipFile.extract` for a missing
parent directory of the target: logged as a lazy creation. -/
def FS.ensureDirLazy (fs : FS) (p : String) : FS :=
  if fs.dirs.contains p then fs
  else { fs with dirs := p :: fs.dirs, lazyDirs := p :: fs.lazyDirs }

/-! ### Zip archives -/

/-- The readable content of a zip archive: its member list, or `corrupt`
when `ZipFile(file, "r")` raises `BadZipFile`. -/
inductive ZipData
  | entries (l : List (String × String))
  | corrupt
deriving Repr, DecidableEq

/-- A zip archive sitting in the download directory. -/
structure ZipFile where
  path : String
  data : ZipData
deriving Repr, DecidableEq

/-- Model of `ZipFile.extract(name, path)`: writes the member at
`os.path.join(path, name)`, creating the target's parent directory when it
does not yet exist (CPython creates it with `exist_ok` semantics, so no
"directory exists" error can arise). -/
def zipExtractAt (fs : FS) (path name c : String) : FS :=
  (fs.ensureDirLazy (dirnamePy (joinTwo path name))).writeFile (joinTwo path name) c

inductive PyErr
  | transferError
  | attributeErrorNone
  | badZipFile
deriving Repr, DecidableEq

deriving instance DecidableEq for Except

/-- The loop body of `extract_cover_zip` (ingram.py lines 153-158): shard
subfolder from the last 4 characters of the member name without extension;
the member is extracted only if its destination path does not exist. -/
def coverStep (target_dir : String) (fs : FS) (e : String × String) : FS :=
  if fs.pathExists (osJoin3 target_dir (sliceLast 4 (splitextPy e.1).1) e.1) then fs
  else zipExtractAt fs (joinTwo target_dir (sliceLast 4 (splitextPy e.1).1)) e.1 e.2

/-- Model of `extract_cover_zip(file, target_dir)` (ingram.py lines 148-158):
extract members one by one so they can be organised into folders based on
the last 4 characters of the name; existing destinations are skipped. -/
def extract_cover_zip (fs : FS) (z : ZipFile) (target_dir : String) :
    FS × Except PyErr Unit :=
  match z.data with
  | .corrupt => (fs, .error .badZipFile)
  | .entries l => (l.foldl (coverStep target_dir) fs, .ok ())

/-- One member extraction of `ZipFile.extractall`. -/
def flatStep (target_dir : String) (fs : FS) (e : String × String) : FS :=
  zipExtractAt fs target_dir e.1 e.2

/-- Model of `extract_zip(file, target_dir)` (ingram.py lines 161-164):
`ZipFile.extractall`, i.e. extract every member unconditionally. -/
def extract_zip (fs : FS) (z : ZipFile) (target_dir : String) :
    FS × Except PyErr Unit :=
  match z.data with
  | .corrupt => (fs, .error .badZipFile)
  | .entries l => (l.foldl (flatStep target_dir) fs, .ok ())

/-! ### Remote transfers and the worker pool -/

/-- Outcome of `ftp.download_file(remote_file, local_file)` for a given
remote path, decided by the remote server (the oracle). -/
inductive FetchOutcome
  | ok (content : String)
  | transferError
  | keyboardInterrupt
deriving Repr, DecidableEq

/-- Events observable during a run: session lifecycle of the FTP
connections, completed transfers, and the run-history checkpoint write. -/
inductive Ev
  | openSession (sid : Nat)
  | closeSession (sid : Nat)
  | transferOk (remote : String)
  | checkpointWrite
deriving Repr, DecidableEq

/-- The module-level globals of `ingram.py` (lines 29-33), all initialised
to `None` at import time. `pool` is an optional handle to a worker pool. -/
structure Globals where
  host : Option String
  user : Option String
  passwd : Option String
  pool : Option Nat
  cover_size : Option String
deriving Repr, DecidableEq

/-- The globals as initialised at module import: everything `None`. -/
def moduleGlobals : Globals :=
  { host := none, user := none, passwd := none, pool := none, cover_size := none }

/-- The global assignments performed by `main` (ingram.py lines 210-219):
`host`, `user`, `passwd` and `cover_size` are assigned; the declared global
`pool` is never assigned (the `with ... as pool` in `download_data_files`
binds a function-local name instead). -/
def mainSetGlobals (g : Globals) (host user passwd cover_size : String) : Globals :=
  { g with host := some host, user := some user, passwd := some passwd,
           cover_size := some cover_size }

/-- Modelled from the spec: `get_local_path(remote_file, download_dir)`
(in `ingram_data_services.utils`, not part of the provided source) —
"download into a deterministic local path derived from the remote path";
"local path is a pure function of the remote path". -/
def get_local_path (remote_file download_dir : String) : String :=
  joinTwo download_dir (lstripSlash remote_file)

/-- Model of `download_file(remote_file, download_dir)` (ingram.py lines 104-116).
A fresh FTP session (id `sid`) is opened per call via
`with IngramFTP(...) as ftp` — modelled from the spec, `IngramFTP` is a
context manager that closes its connection on every exit path.  The body
catches only `KeyboardInterrupt`, whose handler calls `pool.terminate()` on
the module global `pool`; when that global is `None` the handler itself
raises an `AttributeError`.  Any other transfer error propagates. -/
def download_file (g : Globals) (oracle : String → FetchOutcome) (sid : Nat)
    (remote_file download_dir : String) (fs : FS) :
    FS × List Ev × Except PyErr Unit :=
  let local_file := get_local_path remote_file download_dir
  match oracle remote_file with
  | .ok c =>
    (fs.writeFile local_file c,
     [.openSession sid, .transferOk remote_file, .closeSession sid], .ok ())
  | .transferError =>
    (fs, [.openSession sid, .closeSession sid], .error .transferError)
  | .keyboardInterrupt =>
    match g.pool with
    | none => (fs, [.openSession sid, .closeSession sid], .error .attributeErrorNone)
    | some _ => (fs, [.openSession sid, .closeSession sid], .ok ())

/-- Model of `pool.starmap(download_file, items)`: tasks in submission
order with fresh session ids from `sid0`.  Every submitted task runs —
CPython's pool enqueues all chunks and the `MapResult` only becomes ready
once all jobs are done — and the first task exception, if any, is then
re-raised to the caller (later tasks' errors are swallowed). -/
def starmap_download (g : Globals) (oracle : String → FetchOutcome)
    (items : List (String × String)) (fs : FS) (sid0 : Nat) :
    FS × List Ev × Except PyErr Unit :=
  match items with
  | [] => (fs, [], .ok ())
  | (r, d) :: rest =>
    let (fs1, evs1, res1) := download_file g oracle sid0 r d fs
    let (fs2, evs2, res2) := starmap_download g oracle rest fs1 (sid0 + 1)
    (fs2, evs1 ++ evs2,
     match res1 with
     | .error e => .error e
     | .ok _ => res2)

/-- The per-category remote listings returned by `ftp.get_cover_files`,
`get_onix_files`, `get_onix_bklst_files`, `get_reference_files`. -/
structure Listings where
  covers : List String
  onix : List String
  onixBklst : List String
  reference : List String
deriving Repr, DecidableEq

/-- Model of `download_data_files(download_dir)` (ingram.py lines 119-145): one FTP
session (id 0) for the four listings, then four `pool.starmap` batches over
a fresh worker pool bound to a local name (the module global `pool` is not
assigned). -/
def download_data_files (g : Globals) (oracle : String → FetchOutcome)
    (ls : Listings) (download_dir : String) (fs : FS) :
    FS × List Ev × Except PyErr Unit :=
  let listEvs : List Ev := [.openSession 0, .closeSession 0]
  let cover_paths := ls.covers.map (fun p => (p, download_dir))
  let onix_paths := ls.onix.map (fun p => (p, download_dir))
  let onix_bklst_paths := ls.onixBklst.map (fun p => (p, download_dir))
  let ref_paths := ls.reference.map (fun p => (p, download_dir))
  let (fs1, evs1, r1) := starmap_download g oracle cover_paths fs 1
  match r1 with
  | .error e => (fs1, listEvs ++ evs1, .error e)
  | .ok _ =>
    let (fs2, evs2, r2) := starmap_download g oracle onix_paths fs1 (1 + cover_paths.length)
    match r2 with
    | .error e => (fs2, listEvs ++ evs1 ++ evs2, .error e)
    | .ok _ =>
      let (fs3, evs3, r3) := starmap_download g oracle onix_bklst_paths fs2
        (1 + cover_paths.length + onix_paths.length)
      match r3 with
      | .error e => (fs3, listEvs ++ evs1 ++ evs2 ++ evs3, .error e)
      | .ok _ =>
        let (fs4, evs4, r4) := starmap_download g oracle ref_paths fs3
          (1 + cover_paths.length + onix_paths.length + onix_bklst_paths.length)
        (fs4, listEvs ++ evs1 ++ evs2 ++ evs3 ++ evs4, r4)

/-! ### Extraction orchestration -/

/-- The base directory for extracted covers:
`os.path.join(working_dir, "Imageswk", cover_size)`. -/
def coverBase (working_dir cover_size : String) : String :=
  joinTwo (joinTwo working_dir "Imageswk") cover_size

/-- The shard pre-creation loop of `unzip_covers_threaded` (ingram.py
lines 185-187): `os.makedirs(..., exist_ok=True)` on
`os.path.join(working_dir, "Imageswk", cover_size, pad4 i)` for every
`i` from 0 to 9999. -/
def precreate_shard_dirs (fs : FS) (working_dir cover_size : String) : FS :=
  (List.range 10000).foldl
    (fun fs i => fs.makedirsExistOk (joinTwo (coverBase working_dir cover_size) (pad4 i))) fs

/-- Model of `pool.starmap(extract_cover_zip, cover_args)`: sequential reference
order, first raising task re-raised. -/
def starmapExtractCoverZip (fs : FS) (args : List (ZipFile × String)) :
    FS × Except PyErr Unit :=
  match args with
  | [] => (fs, .ok ())
  | (z, d) :: rest =>
    match extract_cover_zip fs z d with
    | (fs1, .error e) => (fs1, .error e)
    | (fs1, .ok _) => starmapExtractCoverZip fs1 rest

/-- Model of `pool.starmap(extract_zip, zip_args)`: sequential reference order,
first raising task re-raised. -/
def starmapExtractZip (fs : FS) (args : List (ZipFile × String)) :
    FS × Except PyErr Unit :=
  match args with
  | [] => (fs, .ok ())
  | (z, d) :: rest =>
    match extract_zip fs z d with
    | (fs1, .error e) => (fs1, .error e)
    | (fs1, .ok _) => starmapExtractZip fs1 rest

/-- Model of `unzip_covers_threaded(cover_zips, working_dir)` (ingram.py
lines 180-195): pre-create the 10000 shard directories, then extract every
cover zip into `os.path.join(working_dir, "Imageswk", cover_size)`. -/
def unzip_covers_threaded (fs : FS) (cover_zips : List ZipFile)
    (working_dir cover_size : String) : FS × Except PyErr Unit :=
  let fs := precreate_shard_dirs fs working_dir cover_size
  let cover_args := cover_zips.map (fun z => (z, coverBase working_dir cover_size))
  starmapExtractCoverZip fs cover_args

/-- Model of `unzip_onix_threaded(data_zips, download_dir, working_dir)` (ingram.py
lines 167-177): each zip is extracted into
`os.path.join(working_dir, os.path.dirname(z).replace(download_dir, "").lstrip("/"))`. -/
def unzip_onix_threaded (fs : FS) (data_zips : List ZipFile)
    (download_dir working_dir : String) : FS × Except PyErr Unit :=
  let zip_args := data_zips.map (fun z =>
    let extract_dir := lstripSlash (replaceAll (dirnamePy z.path) download_dir "")
    (z, joinTwo working_dir extract_dir))
  starmapExtractZip fs zip_args

/-! ### Run history and the orchestrator -/

/-- The persisted run history: the last successful run timestamp, plus a
count of checkpoint writes performed during the modelled execution. -/
structure RunHistory where
  lastRunAt : Option Nat
  writesCount : Nat
deriving Repr, DecidableEq

/-- Modelled from the spec: `save_run_history()`
(in `ingram_data_services.utils`, not part of the provided source) —
"`recordSuccessfulRun(timestamp)` — persists the new checkpoint". -/
def save_run_history (h : RunHistory) (now : Nat) : RunHistory :=
  { lastRunAt := some now, writesCount := h.writesCount + 1 }

/-- Structural prefix test on character lists. -/
def listIsPre : List Char → List Char → Bool
  | [], _ => true
  | _ :: _, [] => false
  | a :: as, b :: bs => a == b && listIsPre as bs

/-- Modelled from the spec: `get_files_matching(dir, "*.zip")`
(in `ingram_data_services.utils`, not part of the provided source) —
returns the archives located under directory `dir`. -/
def get_files_matching (zips : List ZipFile) (dir : String) : List ZipFile :=
  zips.filter (fun z => listIsPre (dir ++ "/").toList z.path.toList)

/-- The configuration values `main` reads from the config file. -/
structure Config where
  host : String
  user : String
  passwd : String
  download_dir : String
  working_dir : String
  cover_size : String
deriving Repr, DecidableEq

/-- The observable world state of a run: local filesystem, persisted run
history, and the event trace. -/
structure World where
  fs : FS
  history : RunHistory
  events : List Ev
deriving Repr, DecidableEq

/-- Model of `main()` (ingram.py lines 198-241): set the globals from config,
download all four categories, then extract cover zips, ONIX zips and
ONIX_BKLST zips, and finally `save_run_history()`.  `archives` are the zip
archives present in the download directory when the unzip stages glob it;
`now` is the timestamp the checkpoint persists.  An exception in any stage
propagates out of `main` and ends the run with that error. -/
def main (cfg : Config) (oracle : String → FetchOutcome) (ls : Listings)
    (archives : List ZipFile) (now : Nat) (fs0 : FS) (h0 : RunHistory) :
    World × Except PyErr Unit :=
  let g := mainSetGlobals moduleGlobals cfg.host cfg.user cfg.passwd cfg.cover_size
  let (fs1, evs1, r1) := download_data_files g oracle ls cfg.download_dir fs0
  match r1 with
  | .error e => ({ fs := fs1, history := h0, events := evs1 }, .error e)
  | .ok _ =>
    let cover_zips := get_files_matching archives (joinTwo cfg.download_dir "Imageswk")
    match unzip_covers_threaded fs1 cover_zips cfg.working_dir cfg.cover_size with
    | (fs2, .error e) => ({ fs := fs2, history := h0, events := evs1 }, .error e)
    | (fs2, .ok _) =>
      let data_zips := get_files_matching archives (joinTwo cfg.download_dir "ONIX")
      match unzip_onix_threaded fs2 data_zips cfg.download_dir cfg.working_dir with
      | (fs3, .error e) => ({ fs := fs3, history := h0, events := evs1 }, .error e)
      | (fs3, .ok _) =>
        let bklst_zips := get_files_matching archives (joinTwo cfg.download_dir "ONIX_BKLST")
        match unzip_onix_threaded fs3 bklst_zips cfg.download_dir cfg.working_dir with
        | (fs4, .error e) => ({ fs := fs4, history := h0, events := evs1 }, .error e)
        | (fs4, .ok _) =>
          ({ fs := fs4, history := save_run_history h0 now,
             events := evs1 ++ [.checkpointWrite] }, .ok ())

/-! ### Basic filesystem lemmas -/

@[simp] theorem toList_mk (l : List Char) : (String.mk l).toList = l := rfl

theorem lookupFile_writeFile (fs : FS) (p q c : String) :
    (fs.writeFile q c).lookupFile p = if p = q then some c else fs.lookupFile p := by
  simp only [FS.writeFile, FS.lookupFile, List.lookup_cons]
  by_cases h : p = q
  · simp [h]
  · rw [beq_eq_false_iff_ne.mpr h, if_neg h]

@[simp] theorem writes_writeFile (fs : FS) (q c : String) :
    (fs.writeFile q c).writes = q :: fs.writes := rfl

@[simp] theorem dirs_writeFile (fs : FS) (q c : String) :
    (fs.writeFile q c).dirs = fs.dirs := rfl

@[simp] theorem lazyDirs_writeFile (fs : FS) (q c : String) :
    (fs.writeFile q c).lazyDirs = fs.lazyDirs := rfl

@[simp] theorem files_ensureDirLazy (fs : FS) (p : String) :
    (fs.ensureDirLazy p).files = fs.files := by
  simp only [FS.ensureDirLazy]; split <;> rfl

@[simp] theorem writes_ensureDirLazy (fs : FS) (p : String) :
    (fs.ensureDirLazy p).writes = fs.writes := by
  simp only [FS.ensureDirLazy]; split <;> rfl

@[simp] theorem lookupFile_ensureDirLazy (fs : FS) (p q : String) :
    (fs.ensureDirLazy q).lookupFile p = fs.lookupFile p := by
  simp only [FS.ensureDirLazy]; split <;> rfl

@[simp] theorem files_makedirsExistOk (fs : FS) (p : String) :
    (fs.makedirsExistOk p).files = fs.files := by
  simp only [FS.makedirsExistOk]; split <;> rfl

@[simp] theorem writes_makedirsExistOk (fs : FS) (p : String) :
    (fs.makedirsExistOk p).writes = fs.writes := by
  simp only [FS.makedirsExistOk]; split <;> rfl

@[simp] theorem lazyDirs_makedirsExistOk (fs : FS) (p : String) :
    (fs.makedirsExistOk p).lazyDirs = fs.lazyDirs := by
  simp only [FS.makedirsExistOk]; split <;> rfl

@[simp] theorem lookupFile_makedirsExistOk (fs : FS) (p q : String) :
    (fs.makedirsExistOk q).lookupFile p = fs.lookupFile p := by
  simp only [FS.makedirsExistOk]; split <;> rfl

theorem dirs_contains_makedirsExistOk_self (fs : FS) (p : String) :
    (fs.makedirsExistOk p).dirs.contains p = true := by
  simp only [FS.makedirsExistOk]
  split
  · assumption
  · simp

theorem dirs_contains_makedirsExistOk_mono (fs : FS) (p q : String)
    (h : fs.dirs.contains p = true) :
    (fs.makedirsExistOk q).dirs.contains p = true := by
  simp only [FS.makedirsExistOk]
  split
  · exact h
  · simp only [List.contains_cons, Bool.or_eq_true]
    exact Or.inr h

theorem dirs_contains_ensureDirLazy_mono (fs : FS) (p q : String)
    (h : fs.dirs.contains p = true) :
    (fs.ensureDirLazy q).dirs.contains p = true := by
  simp only [FS.ensureDirLazy]
  split
  · exact h
  · simp only [List.contains_cons, Bool.or_eq_true]
    exact Or.inr h

theorem dirs_contains_writeFile_mono (fs : FS) (p q c : String)
    (h : fs.dirs.contains p = true) :
    (fs.writeFile q c).dirs.contains p = true := h

theorem ensureDirLazy_of_contains (fs : FS) (p : String)
    (h : fs.dirs.contains p = true) : fs.ensureDirLazy p = fs := by
  simp only [FS.ensureDirLazy]
  rw [if_pos h]

theorem pathExists_writeFile_mono (fs : FS) (p q c : String)
    (h : fs.pathExists p = true) : (fs.writeFile q c).pathExists p = true := by
  simp only [FS.pathExists, lookupFile_writeFile, dirs_writeFile] at *
  rcases Bool.or_eq_true_iff.mp h with h1 | h1
  · by_cases hpq : p = q
    · simp [hpq]
    · rw [if_neg hpq]
      exact Bool.or_eq_true_iff.mpr (Or.inl h1)
  · exact Bool.or_eq_true_iff.mpr (Or.inr h1)

theorem pathExists_ensureDirLazy_mono (fs : FS) (p q : String)
    (h : fs.pathExists p = true) : (fs.ensureDirLazy q).pathExists p = true := by
  simp only [FS.pathExists, lookupFile_ensureDirLazy] at *
  rcases Bool.or_eq_true_iff.mp h with h1 | h1
  · exact Bool.or_eq_true_iff.mpr (Or.inl h1)
  · exact Bool.or_eq_true_iff.mpr (Or.inr (dirs_contains_ensureDirLazy_mono fs p q h1))

theorem pathExists_writeFile_self (fs : FS) (q c : String) :
    (fs.writeFile q c).pathExists q = true := by
  simp [FS.pathExists, lookupFile_writeFile]

theorem lookupFile_writeFile_self (fs : FS) (q c : String) :
    (fs.writeFile q c).lookupFile q = some c := by
  simp [lookupFile_writeFile]

theorem lookupFile_writeFile_ne (fs : FS) (p q c : String) (h : p ≠ q) :
    (fs.writeFile q c).lookupFile p = fs.lookupFile p := by
  simp [lookupFile_writeFile, h]

theorem pathExists_of_lookupFile (fs : FS) (p : String) (b : String)
    (h : fs.lookupFile p = some b) : fs.pathExists p = true := by
  simp [FS.pathExists, h]

/-! ### `lastIdxOf` and `dirnamePy` lemmas -/

theorem lastIdxOf_eq_none_of_not_mem (t : Char) (l : List Char) (h : t ∉ l) :
    lastIdxOf t l = none := by
  induction l with
  | nil => rfl
  | cons c rest ih =>
    simp only [List.mem_cons, not_or] at h
    simp [lastIdxOf, ih h.2, Ne.symm h.1]

theorem lastIdxOf_append (t : Char) (xs ys : List Char) :
    lastIdxOf t (xs ++ ys) =
      match lastIdxOf t ys with
      | some i => some (xs.length + i)
      | none => lastIdxOf t xs := by
  induction xs with
  | nil =>
    simp only [List.nil_append, List.length_nil]
    cases hys : lastIdxOf t ys with
    | some i => simp
    | none => rfl
  | cons c rest ih =>
    show (match lastIdxOf t (rest ++ ys) with
          | some i => some (i + 1)
          | none => if c = t then some 0 else none) = _
    rw [ih]
    cases hys : lastIdxOf t ys with
    | some i =>
      show some (rest.length + i + 1) = some ((c :: rest).length + i)
      simp only [List.length_cons]
      congr 1
      omega
    | none => rfl

/-- The parent-directory computation on a path of the form
`dir ++ "/" ++ name` where `dir` ends in a non-slash character and `name`
is a nonempty slash-free component: it returns `dir`. -/
theorem dirnamePy_append_sep (ys : List Char) (d : Char) (ns : List Char)
    (hd : d ≠ '/') (hns : ns ≠ []) (hns2 : '/' ∉ ns) :
    dirnamePy ⟨(ys ++ [d]) ++ '/' :: ns⟩ = ⟨ys ++ [d]⟩ := by
  have hslash : lastIdxOf '/' ('/' :: ns) = some 0 := by
    simp [lastIdxOf, lastIdxOf_eq_none_of_not_mem '/' ns hns2]
  have hidx : lastIdxOf '/' ((ys ++ [d]) ++ '/' :: ns) = some (ys.length + 1) := by
    rw [lastIdxOf_append, hslash]
    simp
  simp only [dirnamePy, toList_mk, hidx]
  have htake : ((ys ++ [d]) ++ '/' :: ns).take (ys.length + 1 + 1) = (ys ++ [d]) ++ ['/'] := by
    rw [List.take_append_eq_append_take, List.take_of_length_le (by simp)]
    congr 1
    have h1 : (ys ++ [d]).length = ys.length + 1 := by simp
    rw [h1]
    have h2 : ys.length + 1 + 1 - (ys.length + 1) = 1 := by omega
    rw [h2]
    rfl
  rw [htake]
  have hnotall : ¬ ((ys ++ [d]) ++ ['/']).all (fun c => c = '/') = true := by
    intro hall
    rw [List.all_eq_true] at hall
    have hall2 := hall d (by simp)
    simp only [decide_eq_true_eq] at hall2
    exact hd hall2
  rw [if_neg hnotall]
  have hrev : ((ys ++ [d]) ++ ['/']).reverse = '/' :: d :: ys.reverse := by simp
  rw [hrev]
  have : List.dropWhile (fun c => c = '/') ('/' :: d :: ys.reverse) = d :: ys.reverse := by
    simp [List.dropWhile_cons, hd]
  rw [this]
  simp

/-! ### `joinTwo` and `pad4` lemmas -/

theorem toList_append (a b : String) : (a ++ b).toList = a.toList ++ b.toList :=
  String.data_append a b

theorem toList_append_sep (a b : String) :
    (a ++ "/" ++ b).toList = a.toList ++ '/' :: b.toList := by
  rw [toList_append, toList_append, List.append_assoc]
  rfl

theorem joinTwo_eq_append_sep (a b : String)
    (ha : a.toList ≠ []) (ha2 : a.toList.getLast? ≠ some '/')
    (hb : b.toList.head? ≠ some '/') :
    joinTwo a b = a ++ "/" ++ b := by
  unfold joinTwo
  rw [if_neg hb, if_neg]
  rintro (h | h)
  · exact ha h
  · exact ha2 h

theorem joinTwo_getLast? (a b : String) (d : Char)
    (hb : b.toList.getLast? = some d) :
    (joinTwo a b).toList.getLast? = some d := by
  unfold joinTwo
  split
  · exact hb
  · split
    · rw [toList_append, List.getLast?_append, hb]
      rfl
    · rw [toList_append_sep, List.getLast?_append]
      have : ('/' :: b.toList).getLast? = some d := by
        rw [List.getLast?_cons, hb]
        rfl
      rw [this]
      rfl

theorem joinTwo_toList_ne_nil (a b : String) (hb : b.toList ≠ []) :
    (joinTwo a b).toList ≠ [] := by
  unfold joinTwo
  split
  · exact hb
  · split
    · rw [toList_append]
      intro hcontra
      exact hb (List.append_eq_nil.mp hcontra).2
    · rw [toList_append_sep]
      simp

theorem pad4_toList (i : Nat) (hi : i < 10000) :
    (pad4 i).toList = [Nat.digitChar (i / 1000 % 10), Nat.digitChar (i / 100 % 10),
      Nat.digitChar (i / 10 % 10), Nat.digitChar (i % 10)] := by
  simp [pad4, hi]

theorem digitChar_isDigit (d : Nat) (hd : d < 10) : (Nat.digitChar d).isDigit = true := by
  interval_cases d <;> decide

theorem digitChar_ne_slash (d : Nat) (hd : d < 10) : Nat.digitChar d ≠ '/' := by
  interval_cases d <;> decide

theorem pad4_getLast? (i : Nat) (hi : i < 10000) :
    (pad4 i).toList.getLast? = some (Nat.digitChar (i % 10)) := by
  rw [pad4_toList i hi]
  rfl

theorem pad4_head? (i : Nat) (hi : i < 10000) :
    (pad4 i).toList.head? = some (Nat.digitChar (i / 1000 % 10)) := by
  rw [pad4_toList i hi]
  rfl

theorem pad4_length (i : Nat) (hi : i < 10000) : (pad4 i).toList.length = 4 := by
  rw [pad4_toList i hi]
  rfl

/-- The function `dirnamePy` undoes `joinTwo` when the left component ends in a
non-slash character and the right component is a nonempty slash-free
name. -/
theorem dirnamePy_joinTwo (X name : String) (d : Char)
    (hXl : X.toList.getLast? = some d) (hd : d ≠ '/')
    (hn : name.toList ≠ []) (hn2 : '/' ∉ name.toList) :
    dirnamePy (joinTwo X name) = X := by
  have hX : X.toList ≠ [] := by
    intro h
    rw [h] at hXl
    exact Option.noConfusion hXl
  have hhead : name.toList.head? ≠ some '/' := by
    intro h
    exact hn2 (by
      have := List.head?_eq_head hn
      rw [this] at h
      have h2 : name.toList.head hn = '/' := Option.some.inj h
      rw [← h2]
      exact List.head_mem hn)
  rw [joinTwo_eq_append_sep X name hX (by rw [hXl]; exact fun h => hd (Option.some.inj h)) hhead]
  have hXsplit : X.toList = X.toList.dropLast ++ [d] := by
    have h1 := List.dropLast_append_getLast hX
    rw [List.getLast?_eq_getLast _ hX] at hXl
    have hgl : X.toList.getLast hX = d := Option.some.inj hXl
    rw [hgl] at h1
    exact h1.symm
  have harg : (X ++ "/" ++ name) = ⟨(X.toList.dropLast ++ [d]) ++ '/' :: name.toList⟩ := by
    apply String.ext
    show (X ++ "/" ++ name).toList = _
    rw [toList_append_sep, ← hXsplit]
  rw [harg, dirnamePy_append_sep X.toList.dropLast d name.toList hd hn hn2]
  apply String.ext
  show X.toList.dropLast ++ [d] = X.toList
  exact hXsplit.symm

/-! ### Fold lemmas for the extractors -/

theorem zipExtractAt_pathExists_mono (fs : FS) (dir name c : String) (p : String)
    (h : fs.pathExists p = true) : (zipExtractAt fs dir name c).pathExists p = true := by
  unfold zipExtractAt
  exact pathExists_writeFile_mono _ _ _ _ (pathExists_ensureDirLazy_mono _ _ _ h)

theorem coverStep_pathExists_mono (t : String) (fs : FS) (e : String × String) (p : String)
    (h : fs.pathExists p = true) : (coverStep t fs e).pathExists p = true := by
  unfold coverStep
  split
  · exact h
  · exact zipExtractAt_pathExists_mono _ _ _ _ _ h

theorem flatStep_pathExists_mono (t : String) (fs : FS) (e : String × String) (p : String)
    (h : fs.pathExists p = true) : (flatStep t fs e).pathExists p = true :=
  zipExtractAt_pathExists_mono _ _ _ _ _ h

theorem foldl_pathExists_mono (step : FS → String × String → FS)
    (hstep : ∀ fs e p, fs.pathExists p = true → (step fs e).pathExists p = true)
    (l : List (String × String)) (fs : FS) (p : String)
    (h : fs.pathExists p = true) : (l.foldl step fs).pathExists p = true := by
  induction l generalizing fs with
  | nil => exact h
  | cons e rest ih => exact ih (step fs e) (hstep fs e p h)

theorem coverStep_pathExists_self (t : String) (fs : FS) (e : String × String) :
    (coverStep t fs e).pathExists
      (osJoin3 t (sliceLast 4 (splitextPy e.1).1) e.1) = true := by
  unfold coverStep
  split
  · assumption
  · exact pathExists_writeFile_self _ _ _

theorem foldl_coverStep_pathExists (t : String) (l : List (String × String)) (fs : FS) :
    ∀ e ∈ l, (l.foldl (coverStep t) fs).pathExists
      (osJoin3 t (sliceLast 4 (splitextPy e.1).1) e.1) = true := by
  induction l generalizing fs with
  | nil => intro e he; cases he
  | cons a rest ih =>
    intro e he
    rcases List.mem_cons.mp he with h | h
    · subst h
      exact foldl_pathExists_mono _ (coverStep_pathExists_mono t) rest _ _
        (coverStep_pathExists_self t fs e)
    · exact ih (coverStep t fs a) e h

theorem flatStep_pathExists_self (t : String) (fs : FS) (e : String × String) :
    (flatStep t fs e).pathExists (joinTwo t e.1) = true :=
  pathExists_writeFile_self _ _ _

theorem flatStep_lookupFile_self (t : String) (fs : FS) (e : String × String) :
    (flatStep t fs e).lookupFile (joinTwo t e.1) = some e.2 := by
  unfold flatStep zipExtractAt
  exact lookupFile_writeFile_self _ _ _

theorem foldl_flatStep_pathExists (t : String) (l : List (String × String)) (fs : FS) :
    ∀ e ∈ l, (l.foldl (flatStep t) fs).pathExists (joinTwo t e.1) = true := by
  induction l generalizing fs with
  | nil => intro e he; cases he
  | cons a rest ih =>
    intro e he
    rcases List.mem_cons.mp he with h | h
    · subst h
      exact foldl_pathExists_mono _ (flatStep_pathExists_mono t) rest _ _
        (flatStep_pathExists_self t fs e)
    · exact ih (flatStep t fs a) e h

theorem coverStep_preserves (t : String) (fs : FS) (e : String × String)
    (p b : String) (h : fs.lookupFile p = some b) :
    (coverStep t fs e).lookupFile p = some b ∧
    (coverStep t fs e).writes.count p = fs.writes.count p := by
  unfold coverStep
  split
  · exact ⟨h, rfl⟩
  · rename_i hne
    have hpe : fs.pathExists p = true := pathExists_of_lookupFile fs p b h
    have hnep : p ≠ joinTwo (joinTwo t (sliceLast 4 (splitextPy e.1).1)) e.1 := by
      intro heq
      rw [heq] at hpe
      exact hne hpe
    unfold zipExtractAt
    constructor
    · rw [lookupFile_writeFile, if_neg hnep]
      simp [h]
    · rw [writes_writeFile, writes_ensureDirLazy, List.count_cons,
        if_neg (fun hbeq => hnep (beq_iff_eq.mp hbeq).symm)]
      omega

theorem foldl_coverStep_preserves (t : String) (l : List (String × String)) (fs : FS)
    (p b : String) (h : fs.lookupFile p = some b) :
    (l.foldl (coverStep t) fs).lookupFile p = some b ∧
    (l.foldl (coverStep t) fs).writes.count p = fs.writes.count p := by
  induction l generalizing fs with
  | nil => exact ⟨h, rfl⟩
  | cons a rest ih =>
    have hstep := coverStep_preserves t fs a p b h
    have hrest := ih (coverStep t fs a) hstep.1
    exact ⟨hrest.1, hrest.2.trans hstep.2⟩

theorem foldl_flatStep_writes_length (t : String) (l : List (String × String)) (fs : FS) :
    (l.foldl (flatStep t) fs).writes.length = fs.writes.length + l.length := by
  induction l generalizing fs with
  | nil => rfl
  | cons a rest ih =>
    rw [List.foldl_cons, ih]
    have : (flatStep t fs a).writes.length = fs.writes.length + 1 := by
      unfold flatStep zipExtractAt
      rw [writes_writeFile, writes_ensureDirLazy]
      rfl
    rw [this, List.length_cons]
    omega

theorem foldl_coverStep_writes_shape (t : String) (l : List (String × String)) (fs : FS) :
    ∀ p ∈ (l.foldl (coverStep t) fs).writes,
      p ∈ fs.writes ∨ ∃ e ∈ l, p = osJoin3 t (sliceLast 4 (splitextPy e.1).1) e.1 := by
  induction l generalizing fs with
  | nil => intro p hp; exact Or.inl hp
  | cons a rest ih =>
    intro p hp
    rcases ih (coverStep t fs a) p hp with h | h
    · unfold coverStep at h
      split at h
      · exact Or.inl h
      · unfold zipExtractAt at h
        rw [writes_writeFile, writes_ensureDirLazy] at h
        rcases List.mem_cons.mp h with h2 | h2
        · exact Or.inr ⟨a, List.mem_cons_self a rest, h2⟩
        · exact Or.inl h2
    · rcases h with ⟨e, he, hpe⟩
      exact Or.inr ⟨e, List.mem_cons_of_mem a he, hpe⟩

/-! ### Directory pre-creation lemmas -/

theorem foldl_makedirs_files (f : Nat → String) (l : List Nat) (fs : FS) :
    (l.foldl (fun fs j => fs.makedirsExistOk (f j)) fs).files = fs.files := by
  induction l generalizing fs with
  | nil => rfl
  | cons j rest ih => rw [List.foldl_cons, ih, files_makedirsExistOk]

theorem foldl_makedirs_writes (f : Nat → String) (l : List Nat) (fs : FS) :
    (l.foldl (fun fs j => fs.makedirsExistOk (f j)) fs).writes = fs.writes := by
  induction l generalizing fs with
  | nil => rfl
  | cons j rest ih => rw [List.foldl_cons, ih, writes_makedirsExistOk]

theorem foldl_makedirs_lazyDirs (f : Nat → String) (l : List Nat) (fs : FS) :
    (l.foldl (fun fs j => fs.makedirsExistOk (f j)) fs).lazyDirs = fs.lazyDirs := by
  induction l generalizing fs with
  | nil => rfl
  | cons j rest ih => rw [List.foldl_cons, ih, lazyDirs_makedirsExistOk]

theorem foldl_makedirs_contains_mono (f : Nat → String) (l : List Nat) (fs : FS)
    (p : String) (h : fs.dirs.contains p = true) :
    (l.foldl (fun fs j => fs.makedirsExistOk (f j)) fs).dirs.contains p = true := by
  induction l generalizing fs with
  | nil => exact h
  | cons j rest ih =>
    exact ih (fs.makedirsExistOk (f j)) (dirs_contains_makedirsExistOk_mono fs p (f j) h)

theorem foldl_makedirs_contains_self (f : Nat → String) (l : List Nat) (fs : FS)
    (i : Nat) (hi : i ∈ l) :
    (l.foldl (fun fs j => fs.makedirsExistOk (f j)) fs).dirs.contains (f i) = true := by
  induction l generalizing fs with
  | nil => cases hi
  | cons j rest ih =>
    rcases List.mem_cons.mp hi with h | h
    · subst h
      exact foldl_makedirs_contains_mono f rest _ (f i)
        (dirs_contains_makedirsExistOk_self fs (f i))
    · exact ih (fs.makedirsExistOk (f j)) h

theorem precreate_files (fs : FS) (w s : String) :
    (precreate_shard_dirs fs w s).files = fs.files :=
  foldl_makedirs_files _ _ fs

theorem precreate_writes (fs : FS) (w s : String) :
    (precreate_shard_dirs fs w s).writes = fs.writes :=
  foldl_makedirs_writes _ _ fs

theorem precreate_lazyDirs (fs : FS) (w s : String) :
    (precreate_shard_dirs fs w s).lazyDirs = fs.lazyDirs :=
  foldl_makedirs_lazyDirs _ _ fs

theorem precreate_contains (fs : FS) (w s : String) (i : Nat) (hi : i < 10000) :
    (precreate_shard_dirs fs w s).dirs.contains (joinTwo (coverBase w s) (pad4 i)) = true :=
  foldl_makedirs_contains_self _ _ fs i (List.mem_range.mpr hi)

/-! ### Lazy directory creation during cover extraction -/

theorem coverStep_dirs_contains_mono (t : String) (fs : FS) (e : String × String)
    (p : String) (h : fs.dirs.contains p = true) :
    (coverStep t fs e).dirs.contains p = true := by
  unfold coverStep
  split
  · exact h
  · unfold zipExtractAt
    exact dirs_contains_ensureDirLazy_mono _ _ _ h

theorem foldl_coverStep_dirs_contains_mono (t : String) (l : List (String × String))
    (fs : FS) (p : String) (h : fs.dirs.contains p = true) :
    (l.foldl (coverStep t) fs).dirs.contains p = true := by
  induction l generalizing fs with
  | nil => exact h
  | cons a rest ih => exact ih (coverStep t fs a) (coverStep_dirs_contains_mono t fs a p h)

theorem foldl_coverStep_lazyDirs (t : String) (l : List (String × String)) (fs : FS)
    (h : ∀ e ∈ l, fs.dirs.contains
      (dirnamePy (joinTwo (joinTwo t (sliceLast 4 (splitextPy e.1).1)) e.1)) = true) :
    (l.foldl (coverStep t) fs).lazyDirs = fs.lazyDirs := by
  induction l generalizing fs with
  | nil => rfl
  | cons a rest ih =>
    have hstep : (coverStep t fs a).lazyDirs = fs.lazyDirs := by
      unfold coverStep
      split
      · rfl
      · unfold zipExtractAt
        rw [ensureDirLazy_of_contains fs _ (h a (List.mem_cons_self a rest))]
        exact lazyDirs_writeFile fs _ _
    rw [List.foldl_cons, ih (coverStep t fs a) (fun e he =>
      coverStep_dirs_contains_mono t fs a _ (h e (List.mem_cons_of_mem a he))), hstep]

/-- The directory the extractor would have to create for a cover entry
whose shard key is the 4-digit string `pad4 i` is exactly the pre-created
shard directory. -/
theorem cover_entry_dir (t name : String) (i : Nat) (hi : i < 10000)
    (hs : sliceLast 4 (splitextPy name).1 = pad4 i)
    (hn : name.toList ≠ []) (hn2 : '/' ∉ name.toList) :
    dirnamePy (joinTwo (joinTwo t (sliceLast 4 (splitextPy name).1)) name) =
      joinTwo t (pad4 i) := by
  rw [hs]
  exact dirnamePy_joinTwo (joinTwo t (pad4 i)) name (Nat.digitChar (i % 10))
    (joinTwo_getLast? _ _ _ (pad4_getLast? i hi))
    (digitChar_ne_slash _ (Nat.mod_lt _ (by norm_num))) hn hn2

/-- Entry sanity for cover archives: every member name is nonempty,
slash-free, and its shard key is one of the 10000 4-digit strings. -/
def GoodCoverZip (z : ZipFile) : Prop :=
  ∀ l, z.data = ZipData.entries l → ∀ e ∈ l,
    (∃ i, i < 10000 ∧ sliceLast 4 (splitextPy e.1).1 = pad4 i) ∧
    e.1.toList ≠ [] ∧ '/' ∉ e.1.toList

theorem starmapCoverZip_lazyDirs_aux (zs : List ZipFile) (t : String) (fs : FS)
    (hinv : ∀ i, i < 10000 → fs.dirs.contains (joinTwo t (pad4 i)) = true)
    (hshard : ∀ z ∈ zs, GoodCoverZip z) :
    (starmapExtractCoverZip fs (zs.map (fun z => (z, t)))).1.lazyDirs = fs.lazyDirs := by
  induction zs generalizing fs with
  | nil => rfl
  | cons z rest ih =>
    show (starmapExtractCoverZip fs ((z, t) :: rest.map (fun z => (z, t)))).1.lazyDirs = _
    unfold starmapExtractCoverZip
    cases hz : z.data with
    | corrupt =>
      unfold extract_cover_zip
      rw [hz]
    | entries l =>
      unfold extract_cover_zip
      rw [hz]
      have hentry : ∀ e ∈ l, fs.dirs.contains
          (dirnamePy (joinTwo (joinTwo t (sliceLast 4 (splitextPy e.1).1)) e.1)) = true := by
        intro e he
        obtain ⟨⟨i, hi, hsi⟩, hn, hn2⟩ := hshard z (List.mem_cons_self z rest) l hz e he
        rw [cover_entry_dir t e.1 i hi hsi hn hn2]
        exact hinv i hi
      have hfold : (l.foldl (coverStep t) fs).lazyDirs = fs.lazyDirs :=
        foldl_coverStep_lazyDirs t l fs hentry
      have hrest := ih (l.foldl (coverStep t) fs)
        (fun i hi => foldl_coverStep_dirs_contains_mono t l fs _ (hinv i hi))
        (fun z hz => hshard z (List.mem_cons_of_mem _ hz))
      rw [hrest, hfold]

/-! ### Session and transfer lemmas -/

/-- The session ids opened in a trace. -/
def openedSessions (evs : List Ev) : List Nat :=
  evs.filterMap (fun e => match e with | .openSession i => some i | _ => none)

/-- The session ids closed in a trace. -/
def closedSessions (evs : List Ev) : List Nat :=
  evs.filterMap (fun e => match e with | .closeSession i => some i | _ => none)

theorem openedSessions_append (a b : List Ev) :
    openedSessions (a ++ b) = openedSessions a ++ openedSessions b :=
  List.filterMap_append a b _

theorem closedSessions_append (a b : List Ev) :
    closedSessions (a ++ b) = closedSessions a ++ closedSessions b :=
  List.filterMap_append a b _

/-- The trace of a single `download_file` call: the session is opened and
closed exactly once, on every outcome (success, transfer error, and the
`KeyboardInterrupt` branches). -/
theorem download_file_events (g : Globals) (oracle : String → FetchOutcome)
    (sid : Nat) (r d : String) (fs : FS) :
    (download_file g oracle sid r d fs).2.1 =
        [.openSession sid, .transferOk r, .closeSession sid] ∨
    (download_file g oracle sid r d fs).2.1 = [.openSession sid, .closeSession sid] := by
  unfold download_file
  cases h : oracle r with
  | ok c => exact Or.inl rfl
  | transferError => exact Or.inr rfl
  | keyboardInterrupt => cases g.pool <;> exact Or.inr rfl

theorem download_file_sessions (g : Globals) (oracle : String → FetchOutcome)
    (sid : Nat) (r d : String) (fs : FS) :
    openedSessions (download_file g oracle sid r d fs).2.1 = [sid] ∧
    closedSessions (download_file g oracle sid r d fs).2.1 = [sid] := by
  rcases download_file_events g oracle sid r d fs with h | h <;>
    rw [h] <;> exact ⟨rfl, rfl⟩

/-- Sessions in a download batch: every item runs, so exactly one session
per item, with consecutive fresh ids from `sid0`, each opened once and
closed once (also when some task failed). -/
theorem starmap_download_sessions (g : Globals) (oracle : String → FetchOutcome)
    (items : List (String × String)) (fs : FS) (sid0 : Nat) :
    openedSessions (starmap_download g oracle items fs sid0).2.1 =
      List.range' sid0 items.length ∧
    closedSessions (starmap_download g oracle items fs sid0).2.1 =
      List.range' sid0 items.length := by
  induction items generalizing fs sid0 with
  | nil => exact ⟨rfl, rfl⟩
  | cons x rest ih =>
    obtain ⟨r, d⟩ := x
    rcases hdf : download_file g oracle sid0 r d fs with ⟨fs1, evs1, res1⟩
    have hop : openedSessions evs1 = [sid0] ∧ closedSessions evs1 = [sid0] := by
      have := download_file_sessions g oracle sid0 r d fs
      rw [hdf] at this
      exact this
    unfold starmap_download
    rw [hdf]
    dsimp only
    obtain ⟨hok, hck⟩ := ih fs1 (sid0 + 1)
    constructor
    · rw [openedSessions_append, hop.1, hok, List.length_cons, List.range'_succ]
      rfl
    · rw [closedSessions_append, hop.2, hck, List.length_cons, List.range'_succ]
      rfl

/-- If the batch returned without raising (with the module global `pool`
unset, as in every actual run), every item's transfer succeeded. -/
theorem starmap_download_ok_all (g : Globals) (oracle : String → FetchOutcome)
    (items : List (String × String)) (fs : FS) (sid0 : Nat)
    (hpool : g.pool = none)
    (h : (starmap_download g oracle items fs sid0).2.2 = .ok ()) :
    ∀ x ∈ items, ∃ c, oracle x.1 = .ok c := by
  induction items generalizing fs sid0 with
  | nil => intro x hx; cases hx
  | cons x rest ih =>
    obtain ⟨r, d⟩ := x
    intro y hy
    unfold starmap_download at h
    unfold download_file at h
    rw [hpool] at h
    cases hor : oracle r with
    | ok c =>
      rw [hor] at h
      dsimp only at h
      rcases List.mem_cons.mp hy with h2 | h2
      · subst h2
        exact ⟨c, hor⟩
      · exact ih _ (sid0 + 1) h y h2
    | transferError =>
      rw [hor] at h
      dsimp only at h
      cases h
    | keyboardInterrupt =>
      rw [hor] at h
      dsimp only at h
      cases h

theorem checkpointWrite_not_mem_download_file (g : Globals)
    (oracle : String → FetchOutcome) (sid : Nat) (r d : String) (fs : FS) :
    Ev.checkpointWrite ∉ (download_file g oracle sid r d fs).2.1 := by
  rcases download_file_events g oracle sid r d fs with h | h <;> rw [h] <;> simp

theorem checkpointWrite_not_mem_starmap (g : Globals)
    (oracle : String → FetchOutcome) (items : List (String × String))
    (fs : FS) (sid0 : Nat) :
    Ev.checkpointWrite ∉ (starmap_download g oracle items fs sid0).2.1 := by
  induction items generalizing fs sid0 with
  | nil => simp [starmap_download]
  | cons x rest ih =>
    obtain ⟨r, d⟩ := x
    rcases hdf : download_file g oracle sid0 r d fs with ⟨fs1, evs1, res1⟩
    have h1 : Ev.checkpointWrite ∉ evs1 := by
      have := checkpointWrite_not_mem_download_file g oracle sid0 r d fs
      rw [hdf] at this
      exact this
    unfold starmap_download
    rw [hdf]
    dsimp only
    intro hmem
    rcases List.mem_append.mp hmem with hm | hm
    · exact h1 hm
    · exact ih fs1 (sid0 + 1) hm

theorem download_file_ok_shape (g : Globals) (oracle : String → FetchOutcome)
    (sid : Nat) (r d : String) (fs : FS) (c : String) (h : oracle r = .ok c) :
    download_file g oracle sid r d fs =
      (fs.writeFile (get_local_path r d) c,
       [.openSession sid, .transferOk r, .closeSession sid], .ok ()) := by
  unfold download_file
  rw [h]

theorem download_file_transferError_shape (g : Globals) (oracle : String → FetchOutcome)
    (sid : Nat) (r d : String) (fs : FS) (h : oracle r = .transferError) :
    download_file g oracle sid r d fs =
      (fs, [.openSession sid, .closeSession sid], .error .transferError) := by
  unfold download_file
  rw [h]

/-- A batch whose transfers all succeed returns ok and performs exactly
one file write per item. -/
theorem starmap_download_all_ok (g : Globals) (oracle : String → FetchOutcome)
    (items : List (String × String)) (fs : FS) (sid0 : Nat)
    (h : ∀ x ∈ items, ∃ c, oracle x.1 = .ok c) :
    (starmap_download g oracle items fs sid0).2.2 = .ok () ∧
    (starmap_download g oracle items fs sid0).1.writes.length =
      fs.writes.length + items.length := by
  induction items generalizing fs sid0 with
  | nil => exact ⟨rfl, rfl⟩
  | cons x rest ih =>
    obtain ⟨r, d⟩ := x
    obtain ⟨c, hc⟩ := h (r, d) (List.mem_cons_self _ _)
    unfold starmap_download
    rw [download_file_ok_shape g oracle sid0 r d fs c hc]
    dsimp only
    obtain ⟨hok, hlen⟩ := ih (fs.writeFile (get_local_path r d) c) (sid0 + 1)
      (fun y hy => h y (List.mem_cons_of_mem _ hy))
    refine ⟨hok, ?_⟩
    rw [hlen]
    simp only [writes_writeFile, List.length_cons]
    omega

/-! ### Lemmas about `download_data_files` and the extraction batches -/

theorem download_data_files_ok_all (g : Globals) (oracle : String → FetchOutcome)
    (ls : Listings) (dd : String) (fs : FS)
    (hpool : g.pool = none)
    (h : (download_data_files g oracle ls dd fs).2.2 = .ok ()) :
    ∀ p ∈ ls.covers ++ ls.onix ++ ls.onixBklst ++ ls.reference,
      ∃ c, oracle p = .ok c := by
  unfold download_data_files at h
  dsimp only at h
  rcases h1 : starmap_download g oracle (ls.covers.map (fun p => (p, dd))) fs 1 with
    ⟨fs1, evs1, r1⟩
  rw [h1] at h
  cases r1 with
  | error e => cases h
  | ok u1 =>
    rcases h2 : starmap_download g oracle (ls.onix.map (fun p => (p, dd))) fs1
      (1 + (ls.covers.map (fun p => (p, dd))).length) with ⟨fs2, evs2, r2⟩
    rw [h2] at h
    cases r2 with
    | error e => cases h
    | ok u2 =>
      rcases h3 : starmap_download g oracle (ls.onixBklst.map (fun p => (p, dd))) fs2
        (1 + (ls.covers.map (fun p => (p, dd))).length +
          (ls.onix.map (fun p => (p, dd))).length) with ⟨fs3, evs3, r3⟩
      rw [h3] at h
      cases r3 with
      | error e => cases h
      | ok u3 =>
        rcases h4 : starmap_download g oracle (ls.reference.map (fun p => (p, dd))) fs3
          (1 + (ls.covers.map (fun p => (p, dd))).length +
            (ls.onix.map (fun p => (p, dd))).length +
            (ls.onixBklst.map (fun p => (p, dd))).length) with ⟨fs4, evs4, r4⟩
        rw [h4] at h
        intro p hp
        have get1 := starmap_download_ok_all g oracle _ fs 1 hpool (by rw [h1])
        have get2 := starmap_download_ok_all g oracle _ fs1 _ hpool (by rw [h2])
        have get3 := starmap_download_ok_all g oracle _ fs2 _ hpool (by rw [h3])
        have get4 := starmap_download_ok_all g oracle _ fs3 _ hpool (by rw [h4, h])
        rcases List.mem_append.mp hp with hp | hpr
        · rcases List.mem_append.mp hp with hp | hpb
          · rcases List.mem_append.mp hp with hpc | hpo
            · exact get1 (p, dd) (List.mem_map_of_mem _ hpc)
            · exact get2 (p, dd) (List.mem_map_of_mem _ hpo)
          · exact get3 (p, dd) (List.mem_map_of_mem _ hpb)
        · exact get4 (p, dd) (List.mem_map_of_mem _ hpr)

theorem checkpointWrite_not_mem_download_data_files (g : Globals)
    (oracle : String → FetchOutcome) (ls : Listings) (dd : String) (fs : FS) :
    Ev.checkpointWrite ∉ (download_data_files g oracle ls dd fs).2.1 := by
  unfold download_data_files
  dsimp only
  rcases h1 : starmap_download g oracle (ls.covers.map (fun p => (p, dd))) fs 1 with
    ⟨fs1, evs1, r1⟩
  have m1 : Ev.checkpointWrite ∉ evs1 := by
    have := checkpointWrite_not_mem_starmap g oracle (ls.covers.map (fun p => (p, dd))) fs 1
    rw [h1] at this
    exact this
  have mlist : Ev.checkpointWrite ∉ [Ev.openSession 0, Ev.closeSession 0] := by simp
  cases r1 with
  | error e =>
    intro hmem
    rcases List.mem_append.mp hmem with hm | hm
    · exact mlist hm
    · exact m1 hm
  | ok u1 =>
    rcases h2 : starmap_download g oracle (ls.onix.map (fun p => (p, dd))) fs1
      (1 + (ls.covers.map (fun p => (p, dd))).length) with ⟨fs2, evs2, r2⟩
    have m2 : Ev.checkpointWrite ∉ evs2 := by
      have := checkpointWrite_not_mem_starmap g oracle (ls.onix.map (fun p => (p, dd))) fs1
        (1 + (ls.covers.map (fun p => (p, dd))).length)
      rw [h2] at this
      exact this
    cases r2 with
    | error e =>
      intro hmem
      rcases List.mem_append.mp hmem with hm | hm
      · rcases List.mem_append.mp hm with hm2 | hm2
        · exact mlist hm2
        · exact m1 hm2
      · exact m2 hm
    | ok u2 =>
      rcases h3 : starmap_download g oracle (ls.onixBklst.map (fun p => (p, dd))) fs2
        (1 + (ls.covers.map (fun p => (p, dd))).length +
          (ls.onix.map (fun p => (p, dd))).length) with ⟨fs3, evs3, r3⟩
      have m3 : Ev.checkpointWrite ∉ evs3 := by
        have := checkpointWrite_not_mem_starmap g oracle
          (ls.onixBklst.map (fun p => (p, dd))) fs2
          (1 + (ls.covers.map (fun p => (p, dd))).length +
            (ls.onix.map (fun p => (p, dd))).length)
        rw [h3] at this
        exact this
      cases r3 with
      | error e =>
        intro hmem
        rcases List.mem_append.mp hmem with hm | hm
        · rcases List.mem_append.mp hm with hm2 | hm2
          · rcases List.mem_append.mp hm2 with hm3 | hm3
            · exact mlist hm3
            · exact m1 hm3
          · exact m2 hm2
        · exact m3 hm
      | ok u3 =>
        have m4 : Ev.checkpointWrite ∉
            (starmap_download g oracle (ls.reference.map (fun p => (p, dd))) fs3
              (1 + (ls.covers.map (fun p => (p, dd))).length +
                (ls.onix.map (fun p => (p, dd))).length +
                (ls.onixBklst.map (fun p => (p, dd))).length)).2.1 :=
          checkpointWrite_not_mem_starmap g oracle _ fs3 _
        intro hmem
        rcases List.mem_append.mp hmem with hm | hm
        · rcases List.mem_append.mp hm with hm2 | hm2
          · rcases List.mem_append.mp hm2 with hm3 | hm3
            · rcases List.mem_append.mp hm3 with hm4 | hm4
              · exact mlist hm4
              · exact m1 hm4
            · exact m2 hm3
          · exact m3 hm2
        · exact m4 hm

theorem starmapExtractCoverZip_ok_not_corrupt (fs : FS) (args : List (ZipFile × String))
    (h : (starmapExtractCoverZip fs args).2 = .ok ()) :
    ∀ a ∈ args, a.1.data ≠ ZipData.corrupt := by
  induction args generalizing fs with
  | nil => intro a ha; cases ha
  | cons a rest ih =>
    obtain ⟨z, dz⟩ := a
    intro b hb
    unfold starmapExtractCoverZip at h
    unfold extract_cover_zip at h
    cases hz : z.data with
    | corrupt =>
      rw [hz] at h
      cases h
    | entries l =>
      rw [hz] at h
      rcases List.mem_cons.mp hb with h2 | h2
      · subst h2
        simp [hz]
      · exact ih _ h b h2

theorem starmapExtractZip_ok_not_corrupt (fs : FS) (args : List (ZipFile × String))
    (h : (starmapExtractZip fs args).2 = .ok ()) :
    ∀ a ∈ args, a.1.data ≠ ZipData.corrupt := by
  induction args generalizing fs with
  | nil => intro a ha; cases ha
  | cons a rest ih =>
    obtain ⟨z, dz⟩ := a
    intro b hb
    unfold starmapExtractZip at h
    unfold extract_zip at h
    cases hz : z.data with
    | corrupt =>
      rw [hz] at h
      cases h
    | entries l =>
      rw [hz] at h
      rcases List.mem_cons.mp hb with h2 | h2
      · subst h2
        simp [hz]
      · exact ih _ h b h2

/-! ### Placement of entries across whole extraction batches -/

theorem starmapCoverZip_pathExists_mono (fs : FS) (args : List (ZipFile × String))
    (p : String) (h : fs.pathExists p = true) :
    (starmapExtractCoverZip fs args).1.pathExists p = true := by
  induction args generalizing fs with
  | nil => exact h
  | cons a rest ih =>
    obtain ⟨z, d⟩ := a
    unfold starmapExtractCoverZip extract_cover_zip
    cases z.data with
    | corrupt => exact h
    | entries l =>
      exact ih _ (foldl_pathExists_mono _ (coverStep_pathExists_mono d) l fs p h)

theorem starmapZip_pathExists_mono (fs : FS) (args : List (ZipFile × String))
    (p : String) (h : fs.pathExists p = true) :
    (starmapExtractZip fs args).1.pathExists p = true := by
  induction args generalizing fs with
  | nil => exact h
  | cons a rest ih =>
    obtain ⟨z, d⟩ := a
    unfold starmapExtractZip extract_zip
    cases z.data with
    | corrupt => exact h
    | entries l =>
      exact ih _ (foldl_pathExists_mono _ (flatStep_pathExists_mono d) l fs p h)

theorem starmapCoverZip_entry_exists (zs : List ZipFile) (t : String) (fs : FS)
    (h : (starmapExtractCoverZip fs (zs.map (fun z => (z, t)))).2 = .ok ()) :
    ∀ z ∈ zs, ∀ l, z.data = ZipData.entries l → ∀ e ∈ l,
      (starmapExtractCoverZip fs (zs.map (fun z => (z, t)))).1.pathExists
        (osJoin3 t (sliceLast 4 (splitextPy e.1).1) e.1) = true := by
  induction zs generalizing fs with
  | nil => intro z hz; cases hz
  | cons z0 rest ih =>
    intro z hz l hl e he
    rw [List.map_cons] at h ⊢
    unfold starmapExtractCoverZip at h ⊢
    unfold extract_cover_zip at h ⊢
    cases hz0 : z0.data with
    | corrupt =>
      rw [hz0] at h
      dsimp only at h
      cases h
    | entries l0 =>
      rw [hz0] at h
      dsimp only at h ⊢
      rcases List.mem_cons.mp hz with h2 | h2
      · subst h2
        rw [hz0] at hl
        cases hl
        exact starmapCoverZip_pathExists_mono _ _ _
          (foldl_coverStep_pathExists t l fs e he)
      · exact ih _ h z h2 l hl e he

theorem starmapZip_entry_exists (zs : List ZipFile) (tf : ZipFile → String) (fs : FS)
    (h : (starmapExtractZip fs (zs.map (fun z => (z, tf z)))).2 = .ok ()) :
    ∀ z ∈ zs, ∀ l, z.data = ZipData.entries l → ∀ e ∈ l,
      (starmapExtractZip fs (zs.map (fun z => (z, tf z)))).1.pathExists
        (joinTwo (tf z) e.1) = true := by
  induction zs generalizing fs with
  | nil => intro z hz; cases hz
  | cons z0 rest ih =>
    intro z hz l hl e he
    rw [List.map_cons] at h ⊢
    unfold starmapExtractZip at h ⊢
    unfold extract_zip at h ⊢
    cases hz0 : z0.data with
    | corrupt =>
      rw [hz0] at h
      dsimp only at h
      cases h
    | entries l0 =>
      rw [hz0] at h
      dsimp only at h ⊢
      rcases List.mem_cons.mp hz with h2 | h2
      · subst h2
        rw [hz0] at hl
        cases hl
        exact starmapZip_pathExists_mono _ _ _
          (foldl_flatStep_pathExists (tf z) l fs e he)
      · exact ih _ h z h2 l hl e he

/-! ### The claims -/

/-- C2: For every entry of a cover archive, sharded extraction computes the
shard key as the last 4 characters of the entry name without its extension
and places the entry under `destinationDir/<shardKey>/<entryName>`; every
write of the batch lands on such a sharded path; in particular, for
identifier "9780141439518" the shard key is "9518" and the file lands at
`.../9518/9780141439518.jpg`. -/
theorem c2_cover_sharding (fs : FS) (z : ZipFile) (target_dir : String)
    (l : List (String × String)) (hz : z.data = ZipData.entries l) :
    (∀ e ∈ l, (extract_cover_zip fs z target_dir).1.pathExists
        (osJoin3 target_dir (sliceLast 4 (splitextPy e.1).1) e.1) = true) ∧
    (∀ p ∈ (extract_cover_zip fs z target_dir).1.writes,
        p ∈ fs.writes ∨
        ∃ e ∈ l, p = osJoin3 target_dir (sliceLast 4 (splitextPy e.1).1) e.1) ∧
    sliceLast 4 (splitextPy "9780141439518.jpg").1 = "9518" ∧
    (extract_cover_zip emptyFS ⟨"c.zip", ZipData.entries [("9780141439518.jpg", "IMG")]⟩
        "/working/Imageswk/art").1.lookupFile
      "/working/Imageswk/art/9518/9780141439518.jpg" = some "IMG" := by
  refine ⟨?_, ?_, by decide, by decide⟩
  · intro e he
    unfold extract_cover_zip
    rw [hz]
    exact foldl_coverStep_pathExists target_dir l fs e he
  · intro p hp
    unfold extract_cover_zip at hp
    rw [hz] at hp
    exact foldl_coverStep_writes_shape target_dir l fs p hp

theorem c2_cover_sharding_witness :
    (extract_cover_zip emptyFS ⟨"c.zip", ZipData.entries [("9780141439518.jpg", "IMG")]⟩
        "/wk/Imageswk/art").1.pathExists
      (osJoin3 "/wk/Imageswk/art" (sliceLast 4 (splitextPy "9780141439518.jpg").1)
        "9780141439518.jpg") = true :=
  (c2_cover_sharding emptyFS ⟨"c.zip", ZipData.entries [("9780141439518.jpg", "IMG")]⟩
      "/wk/Imageswk/art" [("9780141439518.jpg", "IMG")] rfl).1
    ("9780141439518.jpg", "IMG") (List.mem_singleton.mpr rfl)

/-- A destination directory that already holds the entry `a.txt` with
contents `X`. -/
def fsPre : FS := ⟨[("/t/a.txt", "X")], [], [], []⟩

/-- C3 counterexample: the claim asserts that re-extraction performs no
write for an already-present entry in BOTH strategies, but flat extraction
(`extract_zip`, i.e. `extractall`) writes the entry unconditionally: on a
destination that already holds `/t/a.txt` with the same bytes, re-running
flat extraction performs a write to that very path. -/
theorem c3_counterexample :
    fsPre.lookupFile "/t/a.txt" = some "X" ∧
    (extract_zip fsPre ⟨"z.zip", ZipData.entries [("a.txt", "X")]⟩ "/t").1.writes =
      ["/t/a.txt"] := by
  decide

/-- C3 (amended): only sharded cover extraction skips entries whose
destination already exists — that file's bytes are unchanged and no write
to its path is performed; flat extraction writes every entry of the archive
unconditionally, overwriting the destination with the archive's bytes. -/
theorem c3_amended (fs : FS) (z : ZipFile) (target_dir : String)
    (l : List (String × String)) (hz : z.data = ZipData.entries l)
    (p b : String) (hp : fs.lookupFile p = some b) :
    ((extract_cover_zip fs z target_dir).1.lookupFile p = some b ∧
     (extract_cover_zip fs z target_dir).1.writes.count p = fs.writes.count p) ∧
    (extract_zip fs z target_dir).1.writes.length = fs.writes.length + l.length ∧
    (∀ name c, (extract_zip fs ⟨z.path, ZipData.entries [(name, c)]⟩ target_dir).1.lookupFile
        (joinTwo target_dir name) = some c) := by
  refine ⟨?_, ?_, ?_⟩
  · unfold extract_cover_zip
    rw [hz]
    exact foldl_coverStep_preserves target_dir l fs p b hp
  · unfold extract_zip
    rw [hz]
    exact foldl_flatStep_writes_length target_dir l fs
  · intro name c
    unfold extract_zip
    exact flatStep_lookupFile_self target_dir fs (name, c)

theorem c3_amended_witness :
    (extract_cover_zip fsPre ⟨"z.zip", ZipData.entries [("a.txt", "X")]⟩ "/t").1.lookupFile
        "/t/a.txt" = some "X" ∧
    (extract_cover_zip fsPre ⟨"z.zip", ZipData.entries [("a.txt", "X")]⟩ "/t").1.writes.count
        "/t/a.txt" = fsPre.writes.count "/t/a.txt" :=
  (c3_amended fsPre ⟨"z.zip", ZipData.entries [("a.txt", "X")]⟩ "/t" [("a.txt", "X")] rfl
    "/t/a.txt" "X" rfl).1

/-- C10: a cover entry whose name without extension is shorter than 4
characters does not make sharded extraction fail: the slice `[-4:]` yields
the whole stem, the entry is placed under `destinationDir/<stem>/<name>`,
and that stem is none of the 10000 pre-created 4-digit buckets. -/
theorem c10_short_stem (target_dir name c : String) (fs : FS)
    (hlen : (splitextPy name).1.toList.length < 4) :
    sliceLast 4 (splitextPy name).1 = (splitextPy name).1 ∧
    (∀ i, i < 10000 → (splitextPy name).1 ≠ pad4 i) ∧
    (extract_cover_zip fs ⟨"z", ZipData.entries [(name, c)]⟩ target_dir).2 = .ok () ∧
    (extract_cover_zip fs ⟨"z", ZipData.entries [(name, c)]⟩ target_dir).1.pathExists
      (osJoin3 target_dir (sliceLast 4 (splitextPy name).1) name) = true := by
  refine ⟨?_, ?_, rfl, ?_⟩
  · apply String.ext
    show (splitextPy name).1.toList.drop ((splitextPy name).1.toList.length - 4) =
      (splitextPy name).1.data
    have h0 : (splitextPy name).1.toList.length - 4 = 0 := by omega
    rw [h0, List.drop_zero]
    rfl
  · intro i hi heq
    have hlen4 := pad4_length i hi
    rw [← heq] at hlen4
    omega
  · exact foldl_coverStep_pathExists target_dir [(name, c)] fs (name, c)
      (List.mem_singleton.mpr rfl)

theorem c10_short_stem_witness :
    sliceLast 4 (splitextPy "abc.jpg").1 = (splitextPy "abc.jpg").1 ∧
    (extract_cover_zip emptyFS ⟨"z", ZipData.entries [("abc.jpg", "IMG")]⟩ "/base").1.pathExists
      (osJoin3 "/base" (sliceLast 4 (splitextPy "abc.jpg").1) "abc.jpg") = true :=
  let h := c10_short_stem "/base" "abc.jpg" "IMG" emptyFS (by decide)
  ⟨h.1, h.2.2.2⟩

/-- C9: at every `download_file` call the module global `pool` is still
`None` — `main` assigns `host`, `user`, `passwd` and `cover_size` but never
`pool`, and `download_data_files` binds the pool to a local name — so the
`KeyboardInterrupt` handler's `pool.terminate()` call itself fails on
`None` instead of terminating the worker pool. -/
theorem c9_pool_none (host user passwd cover_size : String)
    (oracle : String → FetchOutcome) (sid : Nat) (r d : String) (fs : FS)
    (h : oracle r = .keyboardInterrupt) :
    (mainSetGlobals moduleGlobals host user passwd cover_size).pool = none ∧
    (download_file (mainSetGlobals moduleGlobals host user passwd cover_size)
        oracle sid r d fs).2.2 = .error .attributeErrorNone := by
  refine ⟨rfl, ?_⟩
  unfold download_file
  rw [h]
  rfl

theorem c9_pool_none_witness :
    (mainSetGlobals moduleGlobals "h" "u" "pw" "art").pool = none ∧
    (download_file (mainSetGlobals moduleGlobals "h" "u" "pw" "art")
        (fun _ => FetchOutcome.keyboardInterrupt) 3 "/r" "/dl" emptyFS).2.2 =
      .error .attributeErrorNone :=
  c9_pool_none "h" "u" "pw" "art" (fun _ => FetchOutcome.keyboardInterrupt) 3 "/r" "/dl"
    emptyFS rfl

/-- C7: every transfer opens its own fresh session and closes it on every
exit path (success, transfer error, interrupt), closing last; across a
batch the opened sessions equal the closed sessions and are pairwise
distinct — no session is shared between workers or reused for a second
item. -/
theorem c7_session_per_transfer (g : Globals) (oracle : String → FetchOutcome)
    (sid : Nat) (r d : String) (fs : FS) (items : List (String × String)) (sid0 : Nat) :
    (openedSessions (download_file g oracle sid r d fs).2.1 = [sid] ∧
     closedSessions (download_file g oracle sid r d fs).2.1 = [sid] ∧
     (download_file g oracle sid r d fs).2.1.getLast? = some (Ev.closeSession sid) ∧
     (download_file g oracle sid r d fs).2.1.head? = some (Ev.openSession sid)) ∧
    (openedSessions (starmap_download g oracle items fs sid0).2.1 =
       closedSessions (starmap_download g oracle items fs sid0).2.1 ∧
     (openedSessions (starmap_download g oracle items fs sid0).2.1).Nodup) := by
  constructor
  · have hs := download_file_sessions g oracle sid r d fs
    refine ⟨hs.1, hs.2, ?_, ?_⟩ <;>
      rcases download_file_events g oracle sid r d fs with h | h <;> rw [h] <;> rfl
  · obtain ⟨hok, hck⟩ := starmap_download_sessions g oracle items fs sid0
    rw [hok, hck]
    exact ⟨rfl, List.nodup_range' sid0 items.length⟩

/-- A remote server on which the cover zip `bad.zip` fails with a transfer
error and every other path downloads fine. -/
def oracleC4 : String → FetchOutcome :=
  fun r => if r = "/Imageswk/art/bad.zip" then .transferError else .ok "DATA"

/-- Listings with a failing and a succeeding cover zip, plus an ONIX zip in
the next batch. -/
def lsC4 : Listings :=
  ⟨["/Imageswk/art/bad.zip", "/Imageswk/art/good.zip"], ["/ONIX/onixA.zip"], [], []⟩

/-- C4 counterexample: `download_file` catches only `KeyboardInterrupt`, so
a transfer error is re-raised by `pool.starmap` once the batch's jobs are
done.  The sibling in the same batch does run to completion (its file is
written), but the error is not recorded per item: `download_data_files`
ends with the raised exception, and the next category's batch never runs —
its file is never produced.  This refutes the claim's "recorded rather
than aborting the whole batch". -/
theorem c4_counterexample :
    (download_data_files moduleGlobals oracleC4 lsC4 "/dl" emptyFS).2.2 =
      .error .transferError ∧
    (download_data_files moduleGlobals oracleC4 lsC4 "/dl" emptyFS).1.lookupFile
      (get_local_path "/Imageswk/art/good.zip" "/dl") = some "DATA" ∧
    (download_data_files moduleGlobals oracleC4 lsC4 "/dl" emptyFS).1.lookupFile
      (get_local_path "/ONIX/onixA.zip" "/dl") = none := by
  decide

/-- C4 (amended): a transfer error in a download task is not caught by the
task and is not recorded per item: sibling downloads in the same batch
still run to completion (every other item performs its file write), and
once all jobs are done `pool.starmap` re-raises the first error in the
caller, so the batch call ends with that exception, aborting
`download_data_files` and the orchestration. -/
theorem c4_amended (g : Globals) (oracle : String → FetchOutcome)
    (pre post : List (String × String)) (r d : String) (fs : FS) (sid0 : Nat)
    (hpre : ∀ x ∈ pre, ∃ c, oracle x.1 = .ok c)
    (hpost : ∀ x ∈ post, ∃ c, oracle x.1 = .ok c)
    (hr : oracle r = .transferError) :
    (starmap_download g oracle (pre ++ (r, d) :: post) fs sid0).2.2 =
      .error .transferError ∧
    (starmap_download g oracle (pre ++ (r, d) :: post) fs sid0).1.writes.length =
      fs.writes.length + pre.length + post.length := by
  induction pre generalizing fs sid0 with
  | nil =>
    rw [List.nil_append]
    unfold starmap_download
    rw [download_file_transferError_shape g oracle sid0 r d fs hr]
    dsimp only
    obtain ⟨hok, hlen⟩ := starmap_download_all_ok g oracle post fs (sid0 + 1) hpost
    refine ⟨rfl, ?_⟩
    rw [hlen]
    simp
  | cons x pre' ih =>
    obtain ⟨rx, dx⟩ := x
    obtain ⟨c, hc⟩ := hpre (rx, dx) (List.mem_cons_self _ _)
    rw [List.cons_append]
    unfold starmap_download
    rw [download_file_ok_shape g oracle sid0 rx dx fs c hc]
    dsimp only
    obtain ⟨h1, h2⟩ := ih (fs.writeFile (get_local_path rx dx) c) (sid0 + 1)
      (fun y hy => hpre y (List.mem_cons_of_mem _ hy))
    refine ⟨h1, ?_⟩
    rw [h2]
    simp only [writes_writeFile, List.length_cons]
    omega

theorem c4_amended_witness :
    (starmap_download moduleGlobals oracleC4
        ([("/Imageswk/art/good.zip", "/dl")] ++ ("/Imageswk/art/bad.zip", "/dl") ::
          [("/ONIX/onixA.zip", "/dl")]) emptyFS 1).2.2 = .error .transferError ∧
    (starmap_download moduleGlobals oracleC4
        ([("/Imageswk/art/good.zip", "/dl")] ++ ("/Imageswk/art/bad.zip", "/dl") ::
          [("/ONIX/onixA.zip", "/dl")]) emptyFS 1).1.writes.length =
      emptyFS.writes.length + [("/Imageswk/art/good.zip", "/dl")].length +
        [("/ONIX/onixA.zip", "/dl")].length :=
  c4_amended moduleGlobals oracleC4 [("/Imageswk/art/good.zip", "/dl")]
    [("/ONIX/onixA.zip", "/dl")] "/Imageswk/art/bad.zip" "/dl" emptyFS 1
    (fun x hx => by
      rcases List.mem_singleton.mp hx with rfl
      exact ⟨"DATA", by decide⟩)
    (fun x hx => by
      rcases List.mem_singleton.mp hx with rfl
      exact ⟨"DATA", by decide⟩)
    (by decide)

/-- C5: before any cover extraction starts, `unzip_covers_threaded` has
created all 10000 shard directories `0000`-`9999` under the cover base
directory, and — provided every archive entry's shard key is one of these
4-digit buckets (with sane flat member names) — no extraction worker ever
creates a shard directory lazily, so no "directory exists" race can arise
(`os.makedirs` is called with `exist_ok=True` everywhere in the model). -/
theorem c5_precreated_shards (fs : FS) (cover_zips : List ZipFile)
    (working_dir cover_size : String)
    (hgood : ∀ z ∈ cover_zips, GoodCoverZip z) :
    (∀ i, i < 10000 →
      (precreate_shard_dirs fs working_dir cover_size).dirs.contains
        (joinTwo (coverBase working_dir cover_size) (pad4 i)) = true) ∧
    (unzip_covers_threaded fs cover_zips working_dir cover_size).1.lazyDirs =
      fs.lazyDirs := by
  constructor
  · exact fun i hi => precreate_contains fs working_dir cover_size i hi
  · show (starmapExtractCoverZip (precreate_shard_dirs fs working_dir cover_size)
      (cover_zips.map (fun z => (z, coverBase working_dir cover_size)))).1.lazyDirs = _
    rw [starmapCoverZip_lazyDirs_aux cover_zips (coverBase working_dir cover_size)
      (precreate_shard_dirs fs working_dir cover_size)
      (fun i hi => precreate_contains fs working_dir cover_size i hi) hgood]
    exact precreate_lazyDirs fs working_dir cover_size

/-- A one-entry cover archive whose shard key is the numeric bucket 9518. -/
def coverZipW : ZipFile := ⟨"/dl/Imageswk/art/c.zip", ZipData.entries [("9780141439518.jpg", "IMG")]⟩

theorem c5_precreated_shards_witness :
    (∀ i, i < 10000 →
      (precreate_shard_dirs emptyFS "/wk" "art").dirs.contains
        (joinTwo (coverBase "/wk" "art") (pad4 i)) = true) ∧
    (unzip_covers_threaded emptyFS [coverZipW] "/wk" "art").1.lazyDirs =
      emptyFS.lazyDirs :=
  c5_precreated_shards emptyFS [coverZipW] "/wk" "art"
    (fun z hz => by
      rcases List.mem_singleton.mp hz with rfl
      intro l hl e he
      cases hl
      rcases List.mem_singleton.mp he with rfl
      exact ⟨⟨9518, by omega, by decide⟩, by decide, by decide⟩)

/-- C8: the produced filesystem layout.  When the cover batch completes,
every cover entry is present at
`working_dir/Imageswk/cover_size/<last-4-of-stem>/<name>`; when an ONIX or
backlist batch completes, every entry of a zip `z` is present under
`working_dir/<rel>/<name>` where `<rel>` is `dirname(z)` with every
occurrence of `download_dir` removed by substring replacement and leading
slashes stripped — exactly the code's computation. -/
theorem c8_layout (fs : FS) (cover_zips data_zips : List ZipFile)
    (working_dir cover_size download_dir : String) :
    ((unzip_covers_threaded fs cover_zips working_dir cover_size).2 = .ok () →
      ∀ z ∈ cover_zips, ∀ l, z.data = ZipData.entries l → ∀ e ∈ l,
        (unzip_covers_threaded fs cover_zips working_dir cover_size).1.pathExists
          (osJoin3 (coverBase working_dir cover_size)
            (sliceLast 4 (splitextPy e.1).1) e.1) = true) ∧
    ((unzip_onix_threaded fs data_zips download_dir working_dir).2 = .ok () →
      ∀ z ∈ data_zips, ∀ l, z.data = ZipData.entries l → ∀ e ∈ l,
        (unzip_onix_threaded fs data_zips download_dir working_dir).1.pathExists
          (joinTwo (joinTwo working_dir
            (lstripSlash (replaceAll (dirnamePy z.path) download_dir ""))) e.1) = true) := by
  constructor
  · intro h z hz l hl e he
    have h2 : (starmapExtractCoverZip (precreate_shard_dirs fs working_dir cover_size)
        (cover_zips.map (fun z => (z, coverBase working_dir cover_size)))).2 = .ok () := h
    exact starmapCoverZip_entry_exists cover_zips (coverBase working_dir cover_size)
      (precreate_shard_dirs fs working_dir cover_size) h2 z hz l hl e he
  · intro h z hz l hl e he
    have h2 : (starmapExtractZip fs (data_zips.map (fun z =>
        (z, joinTwo working_dir
          (lstripSlash (replaceAll (dirnamePy z.path) download_dir "")))))).2 = .ok () := h
    exact starmapZip_entry_exists data_zips
      (fun z => joinTwo working_dir
        (lstripSlash (replaceAll (dirnamePy z.path) download_dir ""))) fs h2 z hz l hl e he

/-- A one-entry ONIX archive below the download directory. -/
def onixZipW : ZipFile := ⟨"/dl/ONIX/a.zip", ZipData.entries [("x.xml", "XML")]⟩

theorem c8_layout_witness :
    (unzip_onix_threaded emptyFS [onixZipW] "/dl" "/wk").1.pathExists
      (joinTwo (joinTwo "/wk"
        (lstripSlash (replaceAll (dirnamePy onixZipW.path) "/dl" ""))) "x.xml") = true :=
  (c8_layout emptyFS [] [onixZipW] "/wk" "art" "/dl").2 (by decide) onixZipW
    (List.mem_singleton.mpr rfl) [("x.xml", "XML")] rfl ("x.xml", "XML")
    (List.mem_singleton.mpr rfl)

/-! ### The orchestrator -/

/-- Full case analysis of `main`: on success the checkpoint is persisted,
it is the unique final event, all four categories' downloads succeeded and
all archives of the three extracted groups were readable; on any error the
run history is untouched and no checkpoint event was emitted. -/
theorem main_spec (cfg : Config) (oracle : String → FetchOutcome) (ls : Listings)
    (archives : List ZipFile) (now : Nat) (fs0 : FS) (h0 : RunHistory) :
    ((main cfg oracle ls archives now fs0 h0).2 = .ok () →
      (main cfg oracle ls archives now fs0 h0).1.history = save_run_history h0 now ∧
      (main cfg oracle ls archives now fs0 h0).1.events.getLast? =
        some Ev.checkpointWrite ∧
      (main cfg oracle ls archives now fs0 h0).1.events.count Ev.checkpointWrite = 1 ∧
      (∀ p ∈ ls.covers ++ ls.onix ++ ls.onixBklst ++ ls.reference,
        ∃ c, oracle p = FetchOutcome.ok c) ∧
      (∀ z ∈ get_files_matching archives (joinTwo cfg.download_dir "Imageswk") ++
          get_files_matching archives (joinTwo cfg.download_dir "ONIX") ++
          get_files_matching archives (joinTwo cfg.download_dir "ONIX_BKLST"),
        z.data ≠ ZipData.corrupt)) ∧
    (∀ e, (main cfg oracle ls archives now fs0 h0).2 = .error e →
      (main cfg oracle ls archives now fs0 h0).1.history = h0 ∧
      (main cfg oracle ls archives now fs0 h0).1.events.count Ev.checkpointWrite = 0) := by
  rcases hd : download_data_files
      (mainSetGlobals moduleGlobals cfg.host cfg.user cfg.passwd cfg.cover_size)
      oracle ls cfg.download_dir fs0 with ⟨fs1, evs1, r1⟩
  have hnc1 : Ev.checkpointWrite ∉ evs1 := by
    have := checkpointWrite_not_mem_download_data_files
      (mainSetGlobals moduleGlobals cfg.host cfg.user cfg.passwd cfg.cover_size)
      oracle ls cfg.download_dir fs0
    rw [hd] at this
    exact this
  unfold main
  dsimp only
  rw [hd]
  dsimp only
  cases r1 with
  | error e0 =>
    dsimp only
    constructor
    · intro h
      cases h
    · intro e he
      exact ⟨rfl, List.count_eq_zero.mpr hnc1⟩
  | ok u1 =>
    cases u1
    dsimp only
    rcases hc : unzip_covers_threaded fs1
        (get_files_matching archives (joinTwo cfg.download_dir "Imageswk"))
        cfg.working_dir cfg.cover_size with ⟨fs2, r2⟩
    cases r2 with
    | error e0 =>
      dsimp only
      constructor
      · intro h
        cases h
      · intro e he
        exact ⟨rfl, List.count_eq_zero.mpr hnc1⟩
    | ok u2 =>
      cases u2
      dsimp only
      rcases ho : unzip_onix_threaded fs2
          (get_files_matching archives (joinTwo cfg.download_dir "ONIX"))
          cfg.download_dir cfg.working_dir with ⟨fs3, r3⟩
      cases r3 with
      | error e0 =>
        dsimp only
        constructor
        · intro h
          cases h
        · intro e he
          exact ⟨rfl, List.count_eq_zero.mpr hnc1⟩
      | ok u3 =>
        cases u3
        dsimp only
        rcases hb : unzip_onix_threaded fs3
            (get_files_matching archives (joinTwo cfg.download_dir "ONIX_BKLST"))
            cfg.download_dir cfg.working_dir with ⟨fs4, r4⟩
        cases r4 with
        | error e0 =>
          dsimp only
          constructor
          · intro h
            cases h
          · intro e he
            exact ⟨rfl, List.count_eq_zero.mpr hnc1⟩
        | ok u4 =>
          cases u4
          dsimp only
          refine ⟨fun _ => ⟨rfl, ?_, ?_, ?_, ?_⟩, fun e he => by cases he⟩
          · exact List.getLast?_concat evs1
          · rw [List.count_append, List.count_eq_zero.mpr hnc1]
            rfl
          · exact download_data_files_ok_all
              (mainSetGlobals moduleGlobals cfg.host cfg.user cfg.passwd cfg.cover_size)
              oracle ls cfg.download_dir fs0 rfl (by rw [hd])
          · intro z hz
            rcases List.mem_append.mp hz with hz2 | hzb
            · rcases List.mem_append.mp hz2 with hzc | hzo
              · have hcc : (starmapExtractCoverZip
                    (precreate_shard_dirs fs1 cfg.working_dir cfg.cover_size)
                    ((get_files_matching archives
                        (joinTwo cfg.download_dir "Imageswk")).map
                      (fun z => (z, coverBase cfg.working_dir cfg.cover_size)))).2 =
                    .ok () := by
                  have : (unzip_covers_threaded fs1
                      (get_files_matching archives (joinTwo cfg.download_dir "Imageswk"))
                      cfg.working_dir cfg.cover_size).2 = .ok () := by rw [hc]
                  exact this
                exact starmapExtractCoverZip_ok_not_corrupt _ _ hcc
                  (z, coverBase cfg.working_dir cfg.cover_size)
                  (List.mem_map_of_mem _ hzc)
              · have hoo : (starmapExtractZip fs2
                    ((get_files_matching archives (joinTwo cfg.download_dir "ONIX")).map
                      (fun z => (z, joinTwo cfg.working_dir
                        (lstripSlash (replaceAll (dirnamePy z.path)
                          cfg.download_dir "")))))).2 = .ok () := by
                  have : (unzip_onix_threaded fs2
                      (get_files_matching archives (joinTwo cfg.download_dir "ONIX"))
                      cfg.download_dir cfg.working_dir).2 = .ok () := by rw [ho]
                  exact this
                exact starmapExtractZip_ok_not_corrupt _ _ hoo
                  (z, joinTwo cfg.working_dir
                    (lstripSlash (replaceAll (dirnamePy z.path) cfg.download_dir "")))
                  (List.mem_map_of_mem _ hzo)
            · have hbb : (starmapExtractZip fs3
                  ((get_files_matching archives
                      (joinTwo cfg.download_dir "ONIX_BKLST")).map
                    (fun z => (z, joinTwo cfg.working_dir
                      (lstripSlash (replaceAll (dirnamePy z.path)
                        cfg.download_dir "")))))).2 = .ok () := by
                have : (unzip_onix_threaded fs3
                    (get_files_matching archives (joinTwo cfg.download_dir "ONIX_BKLST"))
                    cfg.download_dir cfg.working_dir).2 = .ok () := by rw [hb]
                exact this
              exact starmapExtractZip_ok_not_corrupt _ _ hbb
                (z, joinTwo cfg.working_dir
                  (lstripSlash (replaceAll (dirnamePy z.path) cfg.download_dir "")))
                (List.mem_map_of_mem _ hzb)

/-- C1: the run-history checkpoint is written exactly once, as the last
event of the orchestration, and only when the download stage (all four
categories) and all three extraction stages completed; if any stage aborts
with an error, the run history is left untouched and no checkpoint event
occurs. -/
theorem c1_checkpoint_discipline (cfg : Config) (oracle : String → FetchOutcome)
    (ls : Listings) (archives : List ZipFile) (now : Nat) (fs0 : FS) (h0 : RunHistory) :
    ((main cfg oracle ls archives now fs0 h0).2 = .ok () →
      (main cfg oracle ls archives now fs0 h0).1.history = save_run_history h0 now ∧
      (main cfg oracle ls archives now fs0 h0).1.events.getLast? =
        some Ev.checkpointWrite ∧
      (main cfg oracle ls archives now fs0 h0).1.events.count Ev.checkpointWrite = 1 ∧
      (∀ p ∈ ls.covers ++ ls.onix ++ ls.onixBklst ++ ls.reference,
        ∃ c, oracle p = FetchOutcome.ok c) ∧
      (∀ z ∈ get_files_matching archives (joinTwo cfg.download_dir "Imageswk") ++
          get_files_matching archives (joinTwo cfg.download_dir "ONIX") ++
          get_files_matching archives (joinTwo cfg.download_dir "ONIX_BKLST"),
        z.data ≠ ZipData.corrupt)) ∧
    (∀ e, (main cfg oracle ls archives now fs0 h0).2 = .error e →
      (main cfg oracle ls archives now fs0 h0).1.history = h0 ∧
      (main cfg oracle ls archives now fs0 h0).1.events.count Ev.checkpointWrite = 0) :=
  main_spec cfg oracle ls archives now fs0 h0

/-- The configuration used by the concrete runs below. -/
def cfgW : Config := ⟨"h", "u", "pw", "/dl", "/wk", "art"⟩

/-- A server where every file downloads fine. -/
def oracleW : String → FetchOutcome := fun _ => .ok "BYTES"

/-- A listing with one cover zip to download. -/
def lsW : Listings := ⟨["/Imageswk/art/c.zip"], [], [], []⟩

theorem c1_checkpoint_discipline_witness :
    (main cfgW oracleW lsW [] 7 emptyFS ⟨none, 0⟩).1.history =
      save_run_history ⟨none, 0⟩ 7 ∧
    (main cfgW oracleW lsW [] 7 emptyFS ⟨none, 0⟩).1.events.getLast? =
      some Ev.checkpointWrite := by
  have h := c1_checkpoint_discipline cfgW oracleW lsW [] 7 emptyFS ⟨none, 0⟩
  have hok : (main cfgW oracleW lsW [] 7 emptyFS ⟨none, 0⟩).2 = .ok () := rfl
  exact ⟨(h.1 hok).1, (h.1 hok).2.1⟩

/-- The empty listing (nothing new on the server). -/
def lsEmptyL : Listings := ⟨[], [], [], []⟩

/-- A reference archive sitting in the download directory. -/
def refZip (content : String) : ZipFile :=
  ⟨"/dl/Reference/r.zip", ZipData.entries [("r.txt", content)]⟩

set_option maxRecDepth 8192 in
/-- C6 counterexample: a run with a reference archive present in the
download directory completes successfully and commits the checkpoint, yet
performs not a single file write — the reference archive is never
extracted, unlike what the claim asserts for all four categories. -/
theorem c6_counterexample :
    (main cfgW oracleW lsEmptyL [refZip "REF"] 5 emptyFS ⟨none, 0⟩).2 = .ok () ∧
    (main cfgW oracleW lsEmptyL [refZip "REF"] 5 emptyFS ⟨none, 0⟩).1.history.writesCount
      = 1 ∧
    (main cfgW oracleW lsEmptyL [refZip "REF"] 5 emptyFS ⟨none, 0⟩).1.fs.writes = [] := by
  have hmain : main cfgW oracleW lsEmptyL [refZip "REF"] 5 emptyFS ⟨none, 0⟩ =
      ({ fs := precreate_shard_dirs emptyFS "/wk" "art",
         history := save_run_history ⟨none, 0⟩ 5,
         events := [Ev.openSession 0, Ev.closeSession 0, Ev.checkpointWrite] },
       Except.ok ()) := rfl
  rw [hmain]
  exact ⟨rfl, rfl, by rw [precreate_writes]; rfl⟩

set_option maxRecDepth 8192 in
/-- C6 (amended): covers, ONIX and ONIX-backlist go through the full
download-then-extract sequence before the checkpoint is committed, but the
reference category's downloaded archives are never extracted: a successful
run extracts exactly the three groups (all their archives were readable),
while a run whose download directory holds only a reference archive
commits the checkpoint without writing a single extracted file. -/
theorem c6_amended :
    (∀ (cfg : Config) (oracle : String → FetchOutcome) (ls : Listings)
        (archives : List ZipFile) (now : Nat) (fs0 : FS) (h0 : RunHistory),
      (main cfg oracle ls archives now fs0 h0).2 = .ok () →
      ∀ z ∈ get_files_matching archives (joinTwo cfg.download_dir "Imageswk") ++
          get_files_matching archives (joinTwo cfg.download_dir "ONIX") ++
          get_files_matching archives (joinTwo cfg.download_dir "ONIX_BKLST"),
        z.data ≠ ZipData.corrupt) ∧
    (∀ content now,
      (main cfgW oracleW lsEmptyL [refZip content] now emptyFS ⟨none, 0⟩).2 = .ok () ∧
      (main cfgW oracleW lsEmptyL [refZip content] now emptyFS ⟨none, 0⟩).1.fs.writes
        = []) := by
  constructor
  · intro cfg oracle ls archives now fs0 h0 h
    exact ((main_spec cfg oracle ls archives now fs0 h0).1 h).2.2.2.2
  · intro content now
    have hmain : main cfgW oracleW lsEmptyL [refZip content] now emptyFS ⟨none, 0⟩ =
        ({ fs := precreate_shard_dirs emptyFS "/wk" "art",
           history := save_run_history ⟨none, 0⟩ now,
           events := [Ev.openSession 0, Ev.closeSession 0, Ev.checkpointWrite] },
         Except.ok ()) := rfl
    rw [hmain]
    exact ⟨rfl, by rw [precreate_writes]; rfl⟩

/-- A one-entry ONIX archive used to instantiate the amended C6. -/
def onixZipW2 : ZipFile := ⟨"/dl/ONIX/b.zip", ZipData.entries [("y.xml", "XML")]⟩

set_option maxRecDepth 8192 in
theorem c6_amended_witness :
    onixZipW2.data ≠ ZipData.corrupt ∧
    (main cfgW oracleW lsEmptyL [refZip "REF"] 5 emptyFS ⟨none, 0⟩).1.fs.writes = [] := by
  have h := c6_amended
  refine ⟨h.1 cfgW oracleW lsEmptyL [onixZipW2] 5 emptyFS ⟨none, 0⟩ rfl onixZipW2 ?_,
    (h.2 "REF" 5).2⟩
  have : onixZipW2 ∈ get_files_matching [onixZipW2] (joinTwo cfgW.download_dir "ONIX") := by
    decide
  exact List.mem_append.mpr (Or.inl (List.mem_append.mpr (Or.inr this)))

end IngramDS
